import Mathlib

/-!
Verification of the live-telemetry core of the drone-telemetry-frontend
repository: the track accumulator (`useDroneTracks`), the live telemetry
reconciler (`useLiveTelemetry`), the telemetry normalizer (`api/types.ts`),
the reconnect backoff logic, and the map rendering simplification
(`MapPanel.simplifySegment`).  Numeric values (timestamps, coordinates) are
modelled as rationals, JavaScript `undefined`/`null` as `Option`, and the
per-entity reactive state maps as total functions with the source's `?? []`
defaults.
-/

namespace DroneTelemetry

/-! Configuration constants from `src/config.ts`. -/

def STALE_THRESHOLD_MS : ℚ := 10000

def RECONNECT_MAX_DELAY_MS : Nat := 10000

def RECONNECT_BASE_DELAY_MS : Nat := 1000

def HISTORY_POINTS : Nat := 120

/-! Track accumulator state (`useDroneTracks`). -/

structure TrackPoint where
  lat : ℚ
  lon : ℚ
  t : ℚ
deriving DecidableEq, Repr

abbrev TrackSegment := List TrackPoint

abbrev DroneTrackState := String → List TrackSegment

def emptyTracks : DroneTrackState := fun _ => []

/-- `SEGMENT_GAP_SECONDS = Math.max(20, STALE_THRESHOLD_MS / 1000)`. -/
def SEGMENT_GAP_SECONDS : ℚ := max 20 (STALE_THRESHOLD_MS / 1000)

def MAX_POINTS_PER_DRONE : Nat := 800

def totalPoints (segments : List TrackSegment) : Nat :=
  (segments.map List.length).sum

/-- The `while` loop of `trimSegments`: `total` is the running point count of
the remaining segments; while it exceeds the cap, either the whole head
segment is shifted off (when it fits inside the overflow) or the head is
sliced down by the overflow. -/
def trimGo : List TrackSegment → Nat → List TrackSegment
  | [], _ => []
  | head :: rest, total =>
    if total ≤ MAX_POINTS_PER_DRONE then head :: rest
    else
      let overflow := total - MAX_POINTS_PER_DRONE
      if head.length ≤ overflow then trimGo rest (total - head.length)
      else head.drop overflow :: rest

def trimSegments (segments : List TrackSegment) : List TrackSegment :=
  trimGo segments (totalPoints segments)

/-- `shouldStartNewSegment(last, next)`: false when either point is missing,
otherwise whether the absolute time gap exceeds the segment-gap threshold. -/
def shouldStartNewSegment (last next : Option TrackPoint) : Bool :=
  match last, next with
  | some l, some n => decide (|n.t - l.t| > SEGMENT_GAP_SECONDS)
  | _, _ => false

/-- `latestSegment?.[latestSegment.length - 1]` for the entity's segments. -/
def lastRecordedPoint (prev : DroneTrackState) (droneId : String) : Option TrackPoint :=
  (prev droneId).getLast?.bind List.getLast?

/-- `upsertTrack` from `useDroneTracks`: duplicate points (same lat, lon, t as
the entity's last recorded point) leave the state untouched; otherwise the
point either starts a new segment (no/empty latest segment, or gap above
threshold) or extends the latest segment, and the result is trimmed. -/
def upsertTrack (prev : DroneTrackState) (droneId : String) (point : TrackPoint) :
    DroneTrackState :=
  let segments := prev droneId
  let latestSegment := segments.getLast?
  let lastPoint := latestSegment.bind List.getLast?
  if lastPoint = some point then prev
  else
    let nextSegments :=
      match latestSegment with
      | none => segments ++ [[point]]
      | some seg =>
        if seg.isEmpty || shouldStartNewSegment lastPoint (some point) then
          segments ++ [[point]]
        else segments.dropLast ++ [seg ++ [point]]
    Function.update prev droneId (trimSegments nextSegments)

/-- Track states reachable from the empty map by any sequence of accepted
samples. -/
inductive ReachableTrack : DroneTrackState → Prop where
  | empty : ReachableTrack emptyTracks
  | step {s : DroneTrackState} (droneId : String) (point : TrackPoint) :
      ReachableTrack s → ReachableTrack (upsertTrack s droneId point)

/-! Map rendering simplification (`MapPanel.simplifySegment`), default
arguments `maxPoints = 160`, `minDelta = 0.00001`. -/

def simplifyMaxPoints : Nat := 160

def simplifyMinDelta : ℚ := 1 / 100000

/-- The dedup pass of `simplifySegment`: starting from the kept point
`prevKept`, a point whose L1 lat/lon distance from the last kept point is
below `minDelta` is skipped, otherwise it is kept and becomes the new
reference. -/
def dedupeGo (prevKept : TrackPoint) : List TrackPoint → List TrackPoint
  | [] => []
  | curr :: rest =>
    if |prevKept.lat - curr.lat| + |prevKept.lon - curr.lon| < simplifyMinDelta then
      dedupeGo prevKept rest
    else curr :: dedupeGo curr rest

/-- The stride-decimation pass: keep indices divisible by `step` and the last
index. -/
def decimate (deduped : List TrackPoint) (step : Nat) : List TrackPoint :=
  deduped.enum.filterMap fun ip =>
    if ip.1 % step = 0 ∨ ip.1 = deduped.length - 1 then some ip.2 else none

def simplifySegment (segment : TrackSegment) : TrackSegment :=
  if segment.length ≤ 2 then segment
  else
    match segment with
    | [] => []
    | p0 :: rest =>
      let deduped := p0 :: dedupeGo p0 rest
      if deduped.length ≤ simplifyMaxPoints then deduped
      else
        let step := (deduped.length + simplifyMaxPoints - 1) / simplifyMaxPoints
        decimate deduped step

/-! Telemetry data model and normalizer (`src/api/types.ts`). -/

structure DronePosition where
  lat : ℚ
  lon : ℚ
  alt_m : Option ℚ
deriving DecidableEq, Repr

structure RawBattery where
  pct : Option ℚ
  voltage_v : Option ℚ
deriving DecidableEq, Repr

structure RawFlags where
  gps_lost : Option Bool
  rc_lost : Option Bool
  is_emergency : Option Bool
deriving DecidableEq, Repr

structure RawDerived where
  ground_speed_mps : Option ℚ
  climb_rate_mps : Option ℚ
  heading_deg : Option ℚ
deriving DecidableEq, Repr

/-- Raw telemetry shape as returned by the backend (`RawTelemetry`). -/
structure RawTelemetry where
  id : String
  status : Option String
  last_seen_ts : Option ℚ
  source_timestamp : Option ℚ
  received_timestamp : Option ℚ
  position : Option DronePosition
  battery : Option RawBattery
  flight_mode : Option String
  flags : Option RawFlags
  derived : Option RawDerived
  version : Option ℚ
deriving DecidableEq, Repr

/-- The flattened canonical `Telemetry` record. -/
structure Telemetry where
  drone_id : String
  timestamp : Option ℚ
  received_timestamp : Option ℚ
  latitude : Option ℚ
  longitude : Option ℚ
  absolute_altitude_m : Option ℚ
  battery_percentage : Option ℚ
  flight_mode : Option String
  heading_deg : Option ℚ
  ground_speed_mps : Option ℚ
  climb_rate_mps : Option ℚ
  gps_fix : Option Bool
  is_emergency : Option Bool
  ingest_source : Option String
deriving DecidableEq, Repr

/-- JavaScript nullish coalescing `a ?? b`. -/
def orNull {α : Type} (a b : Option α) : Option α :=
  match a with
  | some x => some x
  | none => b

/-- `normalizeTelemetry` from `src/api/types.ts`. -/
def normalizeTelemetry (raw : RawTelemetry) : Telemetry :=
  let timestamp := orNull raw.source_timestamp raw.last_seen_ts
  let receivedTimestamp := orNull raw.received_timestamp raw.last_seen_ts
  let gpsFix : Option Bool :=
    match raw.flags.bind RawFlags.gps_lost with
    | some true => some false
    | some false => some true
    | none => none
  { drone_id := raw.id
    timestamp := timestamp
    received_timestamp := receivedTimestamp
    latitude := raw.position.map DronePosition.lat
    longitude := raw.position.map DronePosition.lon
    absolute_altitude_m := raw.position.bind DronePosition.alt_m
    battery_percentage := raw.battery.bind RawBattery.pct
    flight_mode := raw.flight_mode
    heading_deg := raw.derived.bind RawDerived.heading_deg
    ground_speed_mps := raw.derived.bind RawDerived.ground_speed_mps
    climb_rate_mps := raw.derived.bind RawDerived.climb_rate_mps
    gps_fix := gpsFix
    is_emergency := raw.flags.bind RawFlags.is_emergency
    ingest_source := none }

/-! Live telemetry reconciler (`useLiveTelemetry`). -/

structure TelemetryHistoryPoint where
  t : ℚ
  altitude : Option ℚ
  battery : Option ℚ
deriving DecidableEq, Repr

/-- JavaScript `Array.prototype.slice(-n)` for `n > 0`: the last
`min n (length)` elements. -/
def takeRight {α : Type} (n : Nat) (l : List α) : List α :=
  l.drop (l.length - n)

/-- The history append of `ws.onmessage`:
`[...current, point].slice(-HISTORY_POINTS)`. -/
def appendHistory (current : List TelemetryHistoryPoint) (point : TelemetryHistoryPoint) :
    List TelemetryHistoryPoint :=
  takeRight HISTORY_POINTS (current ++ [point])

/-- The reconciler state touched by the hook's `ws.onmessage` handler. -/
structure LiveMsgState where
  latestByDrone : String → Option Telemetry
  historyByDrone : String → List TelemetryHistoryPoint
  wsError : Option String

/-- The hook's `ws.onmessage`: `parsed = none` models `JSON.parse` throwing,
which lands in the `catch` block setting `wsError`; otherwise the raw message
is normalized (total) and both the latest record and the history buffer for
`droneId` are updated. -/
def liveOnMessage (droneId : String) (parsed : Option RawTelemetry) (nowMs : ℚ)
    (s : LiveMsgState) : LiveMsgState :=
  match parsed with
  | none => { s with wsError := some "Unable to parse telemetry message" }
  | some raw =>
    let message := normalizeTelemetry raw
    let point : TelemetryHistoryPoint :=
      { t := (orNull message.timestamp
          (orNull message.received_timestamp (some (nowMs / 1000)))).getD 0 * 1000
        altitude := message.absolute_altitude_m
        battery := message.battery_percentage }
    { s with
      latestByDrone := Function.update s.latestByDrone droneId (some message)
      historyByDrone := Function.update s.historyByDrone droneId
        (appendHistory (s.historyByDrone droneId) point) }

/-- JavaScript truthiness of an optional number: `undefined` and `0` are
falsy. -/
def qTruthy (x : Option ℚ) : Bool := decide (x.getD 0 ≠ 0)

/-- `lastUpdateMs` from `useLiveTelemetry`:
`if (telemetry?.timestamp) ... else if (telemetry?.received_timestamp) ...
else undefined`, times 1000. -/
def lastUpdateMs (telemetry : Option Telemetry) : Option ℚ :=
  match telemetry with
  | none => none
  | some t =>
    if qTruthy t.timestamp then some (t.timestamp.getD 0 * 1000)
    else if qTruthy t.received_timestamp then some (t.received_timestamp.getD 0 * 1000)
    else none

/-- `isStale`: stale when the last update is older than the threshold, and
always stale when no update time is known. -/
def isStale (currentTimeMs : ℚ) (telemetry : Option Telemetry) : Bool :=
  match lastUpdateMs telemetry with
  | some m => decide (currentTimeMs - m > STALE_THRESHOLD_MS)
  | none => true

/-! Reconnect backoff (`ws.onclose` in both connection managers). -/

/-- `Math.min(RECONNECT_MAX_DELAY_MS, RECONNECT_BASE_DELAY_MS * 2 ** (attempt - 1))`. -/
def reconnectDelay (attempt : Nat) : Nat :=
  min RECONNECT_MAX_DELAY_MS (RECONNECT_BASE_DELAY_MS * 2 ^ (attempt - 1))

/-- Retry counter plus the chronological list of scheduled delays. -/
structure BackoffState where
  retryCount : Nat
  scheduled : List Nat
deriving DecidableEq, Repr

/-- One `ws.onclose` while the entity stays active: increment the counter and
schedule a reconnect with the backoff delay. -/
def onCloseBackoff (s : BackoffState) : BackoffState :=
  let attempt := s.retryCount + 1
  { retryCount := attempt, scheduled := s.scheduled ++ [reconnectDelay attempt] }

/-- `ws.onopen` resets the retry counter to zero. -/
def onOpenBackoff (s : BackoffState) : BackoffState :=
  { s with retryCount := 0 }

/-! Connection lifecycle models for the two stream connection managers. -/

/-- The `useLiveTelemetry` effect's connection lifecycle: `cancelled` is the
closure flag set by the effect cleanup, `pendingReconnects` counts scheduled
`setTimeout(connect, delay)` timers, and `socketsOpened` counts `new
WebSocket(...)` constructions performed by `connect`. -/
structure LiveConnState where
  cancelled : Bool
  retryCount : Nat
  pendingReconnects : Nat
  socketsOpened : Nat
deriving DecidableEq, Repr

/-- `connect()` unconditionally constructs a new WebSocket. -/
def liveConnect (s : LiveConnState) : LiveConnState :=
  { s with socketsOpened := s.socketsOpened + 1 }

/-- The hook's `ws.onclose`: if already cancelled, return; otherwise bump the
retry counter and schedule a reconnect timer. -/
def liveOnClose (s : LiveConnState) : LiveConnState :=
  if s.cancelled then s
  else { s with retryCount := s.retryCount + 1,
                pendingReconnects := s.pendingReconnects + 1 }

/-- The effect cleanup (teardown): sets `cancelled := true` and closes the
current socket; pending timers are NOT cleared. -/
def liveCleanup (s : LiveConnState) : LiveConnState :=
  { s with cancelled := true }

/-- A scheduled reconnect timer fires: the callback is `connect` itself, run
without any cancellation check. -/
def liveTimerFire (s : LiveConnState) : LiveConnState :=
  if s.pendingReconnects = 0 then s
  else liveConnect { s with pendingReconnects := s.pendingReconnects - 1 }

/-- The `useDroneTracks` connection manager: `activeIds` is
`activeIdsRef.current`, `pendingReconnects` the drone ids with a scheduled
reconnect timer, `socketsOpened` the log of ids for which `connect(droneId)`
constructed a WebSocket. -/
structure TracksConnState where
  activeIds : List String
  pendingReconnects : List String
  socketsOpened : List String
deriving DecidableEq, Repr

def tracksConnect (droneId : String) (s : TracksConnState) : TracksConnState :=
  { s with socketsOpened := s.socketsOpened ++ [droneId] }

/-- `ws.onclose` in `useDroneTracks`: if the id left the active set, stop;
otherwise schedule a reconnect timer. -/
def tracksOnClose (droneId : String) (s : TracksConnState) : TracksConnState :=
  if droneId ∈ s.activeIds then
    { s with pendingReconnects := s.pendingReconnects ++ [droneId] }
  else s

/-- Teardown of one entity: it is removed from the active set (its socket is
closed and its per-id state deleted); pending timers are NOT cleared. -/
def tracksRemove (droneId : String) (s : TracksConnState) : TracksConnState :=
  { s with activeIds := s.activeIds.erase droneId }

/-- A scheduled reconnect timer fires in `useDroneTracks`: the callback
re-checks `activeIdsRef.current.has(droneId)` before calling `connect`. -/
def tracksTimerFire (droneId : String) (s : TracksConnState) : TracksConnState :=
  if droneId ∈ s.pendingReconnects then
    let s' := { s with pendingReconnects := s.pendingReconnects.erase droneId }
    if droneId ∈ s'.activeIds then tracksConnect droneId s' else s'
  else s

/-! Stream message handling in `useDroneTracks` (`ws.onmessage` of the map
page). -/

/-- The shapes `JSON.parse` can hand to `normalizeTelemetryMessage`: a
non-object value, an object already carrying canonical top-level fields
(`latitude`/`longitude`/`drone_id`), or a legacy raw object. -/
inductive ParsedPayload where
  | notObject
  | canonical (t : Telemetry)
  | legacy (r : RawTelemetry)
deriving Repr

/-- `normalizeTelemetryMessage`: `null` for non-objects, pass canonical
objects through, normalize legacy ones. -/
def normalizeTelemetryMessage (payload : ParsedPayload) : Option Telemetry :=
  match payload with
  | .notObject => none
  | .canonical t => some t
  | .legacy r => some (normalizeTelemetry r)

/-- `toTrackPoint`: requires numeric lat/lon, derives the time as
`timestamp ?? received_timestamp ?? nowSeconds`.  (The `position.lat`/`lon`
fallback applies to payloads whose canonical cast lacks top-level fields; the
embedding's canonical records always carry them as `Option`.) -/
def toTrackPoint (message : Telemetry) (nowSeconds : ℚ) : Option TrackPoint :=
  match message.latitude, message.longitude with
  | some lat, some lon =>
    some { lat := lat, lon := lon
           t := (orNull message.timestamp
             (orNull message.received_timestamp (some nowSeconds))).getD 0 }
  | _, _ => none

structure TracksMsgState where
  tracks : DroneTrackState
  lastPoints : String → Option TrackPoint

/-- `ws.onmessage` of `useDroneTracks`: `payload = none` models `JSON.parse`
throwing (silently caught); a `none` from `normalizeTelemetryMessage`, a falsy
id, or a failed `toTrackPoint` likewise return without touching state;
otherwise the track state and last point for the resolved id are updated. -/
def tracksOnMessage (droneId : String) (payload : Option ParsedPayload) (nowSeconds : ℚ)
    (s : TracksMsgState) : TracksMsgState :=
  match payload with
  | none => s
  | some p =>
    match normalizeTelemetryMessage p with
    | none => s
    | some telemetry =>
      let id := telemetry.drone_id
      match toTrackPoint telemetry nowSeconds with
      | none => s
      | some trackPoint =>
        if id = "" then s
        else
          { tracks := upsertTrack s.tracks id trackPoint
            lastPoints :=
              if s.lastPoints id = some trackPoint then s.lastPoints
              else Function.update s.lastPoints id (some trackPoint) }

/-! General lemmas about the embedded operations. -/

theorem segment_gap_eq : SEGMENT_GAP_SECONDS = 20 := by
  norm_num [SEGMENT_GAP_SECONDS, STALE_THRESHOLD_MS]

theorem totalPoints_cons (s : TrackSegment) (segs : List TrackSegment) :
    totalPoints (s :: segs) = s.length + totalPoints segs := by
  simp [totalPoints]

theorem totalPoints_append (l₁ l₂ : List TrackSegment) :
    totalPoints (l₁ ++ l₂) = totalPoints l₁ + totalPoints l₂ := by
  simp [totalPoints]

theorem trimGo_of_le {segs : List TrackSegment} {total : Nat}
    (h : total ≤ MAX_POINTS_PER_DRONE) : trimGo segs total = segs := by
  cases segs with
  | nil => rfl
  | cons head rest => simp [trimGo, h]

/-- After the trim loop finishes, the total number of points is within the
cap. -/
theorem totalPoints_trimGo_le (segs : List TrackSegment) :
    ∀ total, total = totalPoints segs →
      totalPoints (trimGo segs total) ≤ MAX_POINTS_PER_DRONE := by
  induction segs with
  | nil =>
    intro total h
    simp [trimGo, totalPoints]
  | cons head rest ih =>
    intro total h
    by_cases hle : total ≤ MAX_POINTS_PER_DRONE
    · rw [trimGo_of_le hle, ← h]; exact hle
    · rw [totalPoints_cons] at h
      by_cases hh : head.length ≤ total - MAX_POINTS_PER_DRONE
      · rw [show trimGo (head :: rest) total = trimGo rest (total - head.length) by
          simp [trimGo, hle, hh]]
        exact ih (total - head.length) (by omega)
      · rw [show trimGo (head :: rest) total
            = head.drop (total - MAX_POINTS_PER_DRONE) :: rest by
          simp [trimGo, hle, hh]]
        rw [totalPoints_cons, List.length_drop]
        omega

theorem totalPoints_trimSegments_le (segs : List TrackSegment) :
    totalPoints (trimSegments segs) ≤ MAX_POINTS_PER_DRONE :=
  totalPoints_trimGo_le segs (totalPoints segs) rfl

/-- The trim loop only ever removes a prefix of the flattened point list:
the surviving points are a suffix of the original points, in order. -/
theorem trimGo_flatten (segs : List TrackSegment) :
    ∀ total, ∃ k, (trimGo segs total).flatten = segs.flatten.drop k := by
  induction segs with
  | nil => intro total; exact ⟨0, rfl⟩
  | cons head rest ih =>
    intro total
    by_cases hle : total ≤ MAX_POINTS_PER_DRONE
    · exact ⟨0, by rw [trimGo_of_le hle, List.drop_zero]⟩
    · by_cases hh : head.length ≤ total - MAX_POINTS_PER_DRONE
      · obtain ⟨k, hk⟩ := ih (total - head.length)
        refine ⟨head.length + k, ?_⟩
        rw [show trimGo (head :: rest) total = trimGo rest (total - head.length) by
          simp [trimGo, hle, hh]]
        rw [hk, List.flatten_cons, ← List.drop_drop,
          List.drop_append_of_le_length (Nat.le_refl _), List.drop_length,
          List.nil_append]
      · refine ⟨total - MAX_POINTS_PER_DRONE, ?_⟩
        rw [show trimGo (head :: rest) total
            = head.drop (total - MAX_POINTS_PER_DRONE) :: rest by
          simp [trimGo, hle, hh]]
        rw [List.flatten_cons, List.flatten_cons,
          List.drop_append_of_le_length (by omega)]

theorem trimSegments_flatten (segs : List TrackSegment) :
    ∃ k, (trimSegments segs).flatten = segs.flatten.drop k :=
  trimGo_flatten segs (totalPoints segs)

/-- Every segment surviving the trim loop is a suffix (`drop`) of a segment of
the input. -/
theorem trimGo_mem (segs : List TrackSegment) :
    ∀ total s, s ∈ trimGo segs total → ∃ s' ∈ segs, ∃ n, s = s'.drop n := by
  induction segs with
  | nil => intro total s hs; simp [trimGo] at hs
  | cons head rest ih =>
    intro total s hs
    by_cases hle : total ≤ MAX_POINTS_PER_DRONE
    · rw [trimGo_of_le hle] at hs
      exact ⟨s, hs, 0, rfl⟩
    · by_cases hh : head.length ≤ total - MAX_POINTS_PER_DRONE
      · rw [show trimGo (head :: rest) total = trimGo rest (total - head.length) by
          simp [trimGo, hle, hh]] at hs
        obtain ⟨s', hs', n, hn⟩ := ih (total - head.length) s hs
        exact ⟨s', List.mem_cons_of_mem _ hs', n, hn⟩
      · rw [show trimGo (head :: rest) total
            = head.drop (total - MAX_POINTS_PER_DRONE) :: rest by
          simp [trimGo, hle, hh]] at hs
        rw [List.mem_cons] at hs
        rcases hs with hs | hs
        · exact ⟨head, List.mem_cons_self _ _, total - MAX_POINTS_PER_DRONE, hs⟩
        · exact ⟨s, List.mem_cons_of_mem _ hs, 0, rfl⟩

/-- The trim loop never leaves an empty segment behind when the input had
none: a head segment emptied by trimming is shifted off entirely. -/
theorem trimGo_ne_nil (segs : List TrackSegment) :
    ∀ total, (∀ s ∈ segs, s ≠ []) → ∀ s ∈ trimGo segs total, s ≠ [] := by
  induction segs with
  | nil => intro total _ s hs; simp [trimGo] at hs
  | cons head rest ih =>
    intro total hne s hs
    by_cases hle : total ≤ MAX_POINTS_PER_DRONE
    · rw [trimGo_of_le hle] at hs
      exact hne s hs
    · by_cases hh : head.length ≤ total - MAX_POINTS_PER_DRONE
      · rw [show trimGo (head :: rest) total = trimGo rest (total - head.length) by
          simp [trimGo, hle, hh]] at hs
        exact ih (total - head.length) (fun s hm => hne s (List.mem_cons_of_mem _ hm)) s hs
      · rw [show trimGo (head :: rest) total
            = head.drop (total - MAX_POINTS_PER_DRONE) :: rest by
          simp [trimGo, hle, hh]] at hs
        rw [List.mem_cons] at hs
        rcases hs with hs | hs
        · rw [hs, Ne, List.drop_eq_nil_iff]
          omega
        · exact hne s (List.mem_cons_of_mem _ hs)

/-- When at most one point of overflow needs trimming, the freshly started
singleton segment at the tail survives the trim untouched. -/
theorem trimSegments_concat_getLast (segs : List TrackSegment) (p : TrackPoint)
    (htot : totalPoints segs ≤ MAX_POINTS_PER_DRONE)
    (hne : ∀ s ∈ segs, s ≠ []) :
    (trimSegments (segs ++ [[p]])).getLast? = some [p] := by
  have htot' : totalPoints (segs ++ [[p]]) = totalPoints segs + 1 := by
    rw [totalPoints_append]; simp [totalPoints]
  rw [trimSegments, htot']
  by_cases hle : totalPoints segs + 1 ≤ MAX_POINTS_PER_DRONE
  · rw [trimGo_of_le hle, List.getLast?_append_of_ne_nil _ (by simp)]
    rfl
  · have hmax : totalPoints segs = MAX_POINTS_PER_DRONE := by omega
    cases segs with
    | nil => simp [totalPoints, MAX_POINTS_PER_DRONE] at hmax
    | cons head rest =>
      have hhead : head ≠ [] := hne head (List.mem_cons_self _ _)
      have hhead' : 0 < head.length := List.length_pos.mpr hhead
      rw [List.cons_append]
      by_cases hh : head.length ≤ totalPoints (head :: rest) + 1 - MAX_POINTS_PER_DRONE
      · have h1 : head.length = 1 := by
          rw [totalPoints_cons] at hmax
          omega
        rw [show trimGo (head :: (rest ++ [[p]])) (totalPoints (head :: rest) + 1)
            = trimGo (rest ++ [[p]]) (totalPoints (head :: rest) + 1 - head.length) by
          simp only [trimGo]
          rw [if_neg (by omega), if_pos (by omega)]]
        rw [trimGo_of_le (by rw [totalPoints_cons] at hmax; omega)]
        rw [List.getLast?_append_of_ne_nil _ (by simp)]
        rfl
      · rw [show trimGo (head :: (rest ++ [[p]])) (totalPoints (head :: rest) + 1)
            = head.drop (totalPoints (head :: rest) + 1 - MAX_POINTS_PER_DRONE)
                :: (rest ++ [[p]]) by
          simp only [trimGo]
          rw [if_neg (by omega), if_neg (by omega)]]
        rw [show head.drop (totalPoints (head :: rest) + 1 - MAX_POINTS_PER_DRONE)
              :: (rest ++ [[p]])
            = [head.drop (totalPoints (head :: rest) + 1 - MAX_POINTS_PER_DRONE)]
              ++ (rest ++ [[p]]) from rfl]
        rw [List.getLast?_append_of_ne_nil _ (by simp),
          List.getLast?_append_of_ne_nil _ (by simp)]
        rfl

/-- Duplicate delivery: a point equal to the entity's last recorded point
leaves the state unchanged. -/
theorem upsertTrack_dup {prev : DroneTrackState} {droneId : String} {point : TrackPoint}
    (h : lastRecordedPoint prev droneId = some point) :
    upsertTrack prev droneId point = prev := by
  unfold upsertTrack
  rw [lastRecordedPoint] at h
  simp [h]

/-- Definitional unfolding of `upsertTrack` with the `let` bindings
expanded. -/
theorem upsertTrack_eq_def (prev : DroneTrackState) (droneId : String) (point : TrackPoint) :
    upsertTrack prev droneId point =
      if (prev droneId).getLast?.bind List.getLast? = some point then prev
      else
        Function.update prev droneId (trimSegments (
          match (prev droneId).getLast? with
          | none => prev droneId ++ [[point]]
          | some seg =>
            if (seg.isEmpty
                || shouldStartNewSegment ((prev droneId).getLast?.bind List.getLast?)
                  (some point)) = true then
              prev droneId ++ [[point]]
            else (prev droneId).dropLast ++ [seg ++ [point]])) := rfl

/-- Exhaustive case analysis of `upsertTrack`: duplicate (state unchanged),
new segment, or extension of the latest segment (which requires a gap within
the threshold). -/
theorem upsertTrack_cases (prev : DroneTrackState) (droneId : String) (point : TrackPoint) :
    upsertTrack prev droneId point = prev ∨
    upsertTrack prev droneId point
      = Function.update prev droneId (trimSegments (prev droneId ++ [[point]])) ∨
    ∃ seg lp, (prev droneId).getLast? = some seg ∧ seg.getLast? = some lp ∧
      shouldStartNewSegment (some lp) (some point) = false ∧ lp ≠ point ∧
      upsertTrack prev droneId point
        = Function.update prev droneId
            (trimSegments ((prev droneId).dropLast ++ [seg ++ [point]])) := by
  rw [upsertTrack_eq_def]
  by_cases hdup : (prev droneId).getLast?.bind List.getLast? = some point
  · left
    rw [if_pos hdup]
  · rw [if_neg hdup]
    right
    cases hseg : (prev droneId).getLast? with
    | none => left; rfl
    | some seg =>
      rw [hseg] at hdup
      rw [Option.some_bind] at hdup
      by_cases hemp : seg.isEmpty
      · left
        have hnil : seg = [] := List.isEmpty_iff.mp hemp
        subst hnil
        simp
      · have hne : seg ≠ [] := by
          intro hcon
          rw [hcon] at hemp
          simp at hemp
        obtain ⟨lp, hlp⟩ : ∃ lp, seg.getLast? = some lp := by
          cases hsg : seg.getLast? with
          | none => exact absurd (List.getLast?_eq_none_iff.mp hsg) hne
          | some lp => exact ⟨lp, rfl⟩
        by_cases hnew : shouldStartNewSegment (some lp) (some point) = true
        · left
          simp [hlp, hnew]
        · right
          refine ⟨seg, lp, rfl, hlp, by simpa using hnew, ?_, ?_⟩
          · intro hcon
            rw [hlp, hcon] at hdup
            exact hdup rfl
          · simp [hlp, show seg.isEmpty = false by simpa using hemp,
              show shouldStartNewSegment (some lp) (some point) = false by simpa using hnew]

/-- Chain-style segment invariants are preserved by `upsertTrack`, for any
relation that is guaranteed between the last recorded point and an appended
point whenever the append extends the current segment. -/
theorem upsert_preserves_chain (R : TrackPoint → TrackPoint → Prop)
    {prev : DroneTrackState} {droneId : String} {point : TrackPoint}
    (hall : ∀ id, ∀ seg ∈ prev id, seg.Chain' R)
    (hrel : ∀ lp, lastRecordedPoint prev droneId = some lp →
      shouldStartNewSegment (some lp) (some point) = false → R lp point) :
    ∀ id, ∀ seg ∈ (upsertTrack prev droneId point) id, seg.Chain' R := by
  rcases upsertTrack_cases prev droneId point with h | h | ⟨seg, lp, hseg, hlp, hnew, hne, h⟩
  · rw [h]; exact hall
  · rw [h]
    intro id s hs
    rw [Function.update_apply] at hs
    by_cases hid : id = droneId
    · rw [if_pos hid] at hs
      obtain ⟨s', hs', n, hn⟩ := trimGo_mem _ _ _ hs
      subst hn
      rcases List.mem_append.mp hs' with hm | hm
      · exact (hall droneId s' hm).drop n
      · rw [List.mem_singleton.mp hm]
        exact (List.chain'_singleton point).drop n
    · rw [if_neg hid] at hs
      exact hall id s hs
  · rw [h]
    intro id s hs
    rw [Function.update_apply] at hs
    by_cases hid : id = droneId
    · rw [if_pos hid] at hs
      obtain ⟨s', hs', n, hn⟩ := trimGo_mem _ _ _ hs
      subst hn
      rcases List.mem_append.mp hs' with hm | hm
      · exact (hall droneId s' ((List.dropLast_sublist _).mem hm)).drop n
      · rw [List.mem_singleton.mp hm]
        refine (List.Chain'.append ?_ (List.chain'_singleton point) ?_).drop n
        · exact hall droneId seg (List.mem_of_mem_getLast? hseg)
        · intro x hx y hy
          rw [hlp, Option.mem_some_iff] at hx
          simp only [List.head?_cons, Option.mem_some_iff] at hy
          subst hx; subst hy
          exact hrel lp (by rw [lastRecordedPoint, hseg, Option.some_bind, hlp]) hnew
    · rw [if_neg hid] at hs
      exact hall id s hs

/-- The cap and the no-empty-segment property are preserved by
`upsertTrack`. -/
theorem upsert_preserves_cap_ne_nil
    {prev : DroneTrackState} {droneId : String} {point : TrackPoint}
    (htot : ∀ id, totalPoints (prev id) ≤ MAX_POINTS_PER_DRONE)
    (hne : ∀ id, ∀ seg ∈ prev id, seg ≠ []) :
    (∀ id, totalPoints ((upsertTrack prev droneId point) id) ≤ MAX_POINTS_PER_DRONE) ∧
    (∀ id, ∀ seg ∈ (upsertTrack prev droneId point) id, seg ≠ []) := by
  rcases upsertTrack_cases prev droneId point with h | h | ⟨seg, lp, hseg, hlp, hnew, hnp, h⟩
  · rw [h]; exact ⟨htot, hne⟩
  · rw [h]
    constructor
    · intro id
      rw [Function.update_apply]
      by_cases hid : id = droneId
      · rw [if_pos hid]; exact totalPoints_trimSegments_le _
      · rw [if_neg hid]; exact htot id
    · intro id s hs
      rw [Function.update_apply] at hs
      by_cases hid : id = droneId
      · rw [if_pos hid] at hs
        refine trimGo_ne_nil _ _ ?_ s hs
        intro s' hs'
        rcases List.mem_append.mp hs' with hm | hm
        · exact hne droneId s' hm
        · rw [List.mem_singleton.mp hm]; simp
      · rw [if_neg hid] at hs
        exact hne id s hs
  · rw [h]
    constructor
    · intro id
      rw [Function.update_apply]
      by_cases hid : id = droneId
      · rw [if_pos hid]; exact totalPoints_trimSegments_le _
      · rw [if_neg hid]; exact htot id
    · intro id s hs
      rw [Function.update_apply] at hs
      by_cases hid : id = droneId
      · rw [if_pos hid] at hs
        refine trimGo_ne_nil _ _ ?_ s hs
        intro s' hs'
        rcases List.mem_append.mp hs' with hm | hm
        · exact hne droneId s' ((List.dropLast_sublist _).mem hm)
        · rw [List.mem_singleton.mp hm]; simp
      · rw [if_neg hid] at hs
        exact hne id s hs

/-- The gap relation between consecutive points of a segment. -/
def gapOK (a b : TrackPoint) : Prop := |b.t - a.t| ≤ SEGMENT_GAP_SECONDS

/-- Full invariant of reachable track states: capped totals, no empty
segments, and within-segment gaps below the threshold. -/
theorem reachable_invariant {s : DroneTrackState} (h : ReachableTrack s) :
    (∀ id, totalPoints (s id) ≤ MAX_POINTS_PER_DRONE) ∧
    (∀ id, ∀ seg ∈ s id, seg ≠ []) ∧
    (∀ id, ∀ seg ∈ s id, seg.Chain' gapOK) := by
  induction h with
  | empty =>
    exact ⟨fun _ => by simp [emptyTracks, totalPoints],
      fun _ s hs => by simp [emptyTracks] at hs,
      fun _ s hs => by simp [emptyTracks] at hs⟩
  | step droneId point _ ih =>
    obtain ⟨htot, hne, hchain⟩ := ih
    obtain ⟨htot', hne'⟩ := upsert_preserves_cap_ne_nil htot hne
    refine ⟨htot', hne', ?_⟩
    refine upsert_preserves_chain gapOK hchain ?_
    intro lp _ hnew
    rw [shouldStartNewSegment] at hnew
    simp only [decide_eq_false_iff_not, not_lt] at hnew
    exact hnew

/-- A point whose gap from the last recorded point exceeds the threshold
always starts a new segment. -/
theorem upsertTrack_gap_new_segment {prev : DroneTrackState} {droneId : String}
    {point lp : TrackPoint}
    (hlast : lastRecordedPoint prev droneId = some lp)
    (hgap : shouldStartNewSegment (some lp) (some point) = true) :
    upsertTrack prev droneId point
      = Function.update prev droneId (trimSegments (prev droneId ++ [[point]])) := by
  rw [lastRecordedPoint] at hlast
  obtain ⟨seg, hseg, hlp⟩ :
      ∃ seg, (prev droneId).getLast? = some seg ∧ seg.getLast? = some lp := by
    cases hs : (prev droneId).getLast? with
    | none => rw [hs] at hlast; simp at hlast
    | some seg => rw [hs, Option.some_bind] at hlast; exact ⟨seg, rfl, hlast⟩
  have hnp : lp ≠ point := by
    intro hcon
    subst hcon
    have habs : |lp.t - lp.t| > SEGMENT_GAP_SECONDS := by
      simpa [shouldStartNewSegment] using hgap
    rw [sub_self, abs_zero, segment_gap_eq] at habs
    norm_num at habs
  rw [upsertTrack_eq_def]
  rw [if_neg (by rw [hlast]; intro hcon; exact hnp (Option.some_injective _ hcon)), hseg]
  simp [hlp, hgap]

/-- `Array.prototype.slice(-n)` of an already-sliced buffer: re-slicing after
an append sees only the retained suffix. -/
theorem takeRight_length {α : Type} (n : Nat) (l : List α) :
    (takeRight n l).length = min n l.length := by
  rw [takeRight, List.length_drop]
  omega

theorem takeRight_eq_self {α : Type} {n : Nat} {l : List α} (h : l.length ≤ n) :
    takeRight n l = l := by
  rw [takeRight, Nat.sub_eq_zero_of_le h, List.drop_zero]

theorem takeRight_append_takeRight {α : Type} (n : Nat) (x y : List α) :
    takeRight n (takeRight n x ++ y) = takeRight n (x ++ y) := by
  by_cases h : x.length ≤ n
  · rw [takeRight_eq_self h]
  · have hd : x.length - n ≤ x.length := by omega
    rw [show takeRight n x ++ y = (x ++ y).drop (x.length - n) by
      rw [takeRight, List.drop_append_of_le_length hd]]
    rw [takeRight, takeRight, List.drop_drop]
    congr 1
    simp only [List.length_drop, List.length_append]
    omega

/-- Folding the history append over a message sequence keeps exactly the most
recent points of the whole sequence. -/
theorem foldl_appendHistory (ps : List TelemetryHistoryPoint) :
    ∀ acc, acc.length ≤ HISTORY_POINTS →
      ps.foldl appendHistory acc = takeRight HISTORY_POINTS (acc ++ ps) := by
  induction ps with
  | nil =>
    intro acc h
    rw [List.foldl_nil, List.append_nil, takeRight_eq_self h]
  | cons p ps ih =>
    intro acc h
    rw [List.foldl_cons,
      ih (appendHistory acc p)
        (by rw [appendHistory, takeRight_length]; exact Nat.min_le_left _ _),
      appendHistory, takeRight_append_takeRight, List.append_assoc,
      List.singleton_append]

theorem getLast?_cons_of_ne_nil {α : Type} (a : α) {l : List α} (h : l ≠ []) :
    (a :: l).getLast? = l.getLast? := by
  rw [show a :: l = [a] ++ l from rfl, List.getLast?_append_of_ne_nil _ h]

/-- The last point kept by the dedup pass is either the segment's original
last point or within the min-delta threshold of it. -/
theorem dedupeGo_getLast_close (rest : List TrackPoint) :
    ∀ p0 : TrackPoint,
      ∃ q, (p0 :: dedupeGo p0 rest).getLast? = some q ∧
        ∀ l, (p0 :: rest).getLast? = some l →
          q = l ∨ |q.lat - l.lat| + |q.lon - l.lon| < simplifyMinDelta := by
  induction rest with
  | nil =>
    intro p0
    refine ⟨p0, rfl, fun l hl => Or.inl ?_⟩
    simpa using hl
  | cons c r ihr =>
    intro p0
    by_cases hc : |p0.lat - c.lat| + |p0.lon - c.lon| < simplifyMinDelta
    · rw [show dedupeGo p0 (c :: r) = dedupeGo p0 r by simp [dedupeGo, hc]]
      cases r with
      | nil =>
        refine ⟨p0, by simp [dedupeGo], fun l hl => Or.inr ?_⟩
        have hlc : c = l := by simpa using hl
        rw [← hlc]
        exact hc
      | cons c2 r2 =>
        obtain ⟨q, hq, hcl⟩ := ihr p0
        refine ⟨q, hq, fun l hl => hcl l ?_⟩
        rw [getLast?_cons_of_ne_nil _ (by simp)]
        rw [getLast?_cons_of_ne_nil _ (by simp), getLast?_cons_of_ne_nil _ (by simp)] at hl
        exact hl
    · rw [show dedupeGo p0 (c :: r) = c :: dedupeGo c r by simp [dedupeGo, hc]]
      obtain ⟨q, hq, hcl⟩ := ihr c
      refine ⟨q, ?_, fun l hl => hcl l ?_⟩
      · rw [getLast?_cons_of_ne_nil _ (by simp)]
        exact hq
      · rw [getLast?_cons_of_ne_nil _ (by simp)] at hl
        exact hl

/-- Filtering an enumerated list by an index predicate that keeps the final
index preserves the last element. -/
theorem filterMap_enumFrom_getLast (keep : Nat → Prop) [DecidablePred keep] :
    ∀ (l : List TrackPoint) (k : Nat), l ≠ [] → keep (k + l.length - 1) →
      ((List.enumFrom k l).filterMap
        (fun ip => if keep ip.1 then some ip.2 else none)).getLast? = l.getLast? := by
  intro l
  induction l with
  | nil => intro k h; exact absurd rfl h
  | cons x xs ih =>
    intro k hne hkeep
    cases xs with
    | nil =>
      have hk : keep k := by simpa using hkeep
      simp [List.enumFrom, hk]
    | cons y ys =>
      have harith : k + 1 + (y :: ys).length - 1 = k + (x :: y :: ys).length - 1 := by
        simp only [List.length_cons]
        omega
      have htail := ih (k + 1) (by simp) (by rw [harith]; exact hkeep)
      have htailne :
          ((List.enumFrom (k + 1) (y :: ys)).filterMap
            (fun ip => if keep ip.1 then some ip.2 else none)) ≠ [] := by
        intro hcon
        rw [hcon, List.getLast?_nil] at htail
        have h0 : (y :: ys : List TrackPoint) = [] := List.getLast?_eq_none_iff.mp htail.symm
        simp at h0
      rw [List.enumFrom_cons, List.filterMap_cons]
      by_cases hk : keep k
      · rw [if_pos hk]
        rw [getLast?_cons_of_ne_nil _ htailne, htail,
          @getLast?_cons_of_ne_nil _ x (y :: ys) (by simp)]
      · rw [if_neg hk]
        rw [htail, @getLast?_cons_of_ne_nil _ x (y :: ys) (by simp)]

/-- The decimation pass keeps the first element (index 0 is always kept). -/
theorem decimate_head (x : TrackPoint) (xs : List TrackPoint) (step : Nat) :
    (decimate (x :: xs) step).head? = some x := by
  rw [decimate, List.enum_eq_enumFrom, List.enumFrom_cons, List.filterMap_cons]
  simp

/-- The decimation pass keeps the last element (the final index is always
kept). -/
theorem decimate_getLast (l : List TrackPoint) (step : Nat) (h : l ≠ []) :
    (decimate l step).getLast? = l.getLast? := by
  rw [decimate, List.enum_eq_enumFrom]
  exact filterMap_enumFrom_getLast (fun i => i % step = 0 ∨ i = l.length - 1) l 0 h
    (Or.inr (by omega))

/-! Claim theorems. -/

/-- C1: the claim states that a reconnect timer firing after its entity's
teardown never opens a new connection.  This is a code bug in
`useLiveTelemetry`: `ws.onclose` checks `cancelled` only when scheduling, and
the timer callback is `connect` itself, so a timer scheduled before the
effect cleanup opens a new WebSocket after teardown.  The `useDroneTracks`
manager, in contrast, re-checks active-set membership at fire time and opens
nothing. -/
theorem reconnect_timer_after_teardown :
    (liveCleanup (liveOnClose ⟨false, 0, 0, 0⟩)).cancelled = true ∧
    (liveCleanup (liveOnClose ⟨false, 0, 0, 0⟩)).pendingReconnects = 1 ∧
    (liveTimerFire (liveCleanup (liveOnClose ⟨false, 0, 0, 0⟩))).socketsOpened = 1 ∧
    (tracksTimerFire "D1"
      (tracksRemove "D1" (tracksOnClose "D1" ⟨["D1"], [], []⟩))).socketsOpened = [] := by
  refine ⟨rfl, rfl, rfl, ?_⟩
  decide

/-- C2 counterexample: a message whose parse fails is NOT dropped silently by
the live-telemetry hook: its catch block records the user-visible error
string in `wsError`. -/
theorem parse_failure_records_wsError :
    (⟨fun _ => none, fun _ => [], none⟩ : LiveMsgState).wsError = none ∧
    (liveOnMessage "D1" none 0 ⟨fun _ => none, fun _ => [], none⟩).wsError
      = some "Unable to parse telemetry message" := ⟨rfl, rfl⟩

/-- C2 (amended): a message whose parsing or normalization fails leaves all
per-entity telemetry, history and track state unchanged and triggers no
retry; the track accumulator drops it fully silently, while the
live-telemetry hook records the parse-error string in `wsError`. -/
theorem malformed_message_state_unchanged (droneId : String) (payload : ParsedPayload)
    (now : ℚ) (s : TracksMsgState) (ls : LiveMsgState)
    (h : normalizeTelemetryMessage payload = none) :
    tracksOnMessage droneId none now s = s ∧
    tracksOnMessage droneId (some payload) now s = s ∧
    (liveOnMessage droneId none now ls).latestByDrone = ls.latestByDrone ∧
    (liveOnMessage droneId none now ls).historyByDrone = ls.historyByDrone ∧
    (liveOnMessage droneId none now ls).wsError
      = some "Unable to parse telemetry message" := by
  refine ⟨rfl, ?_, rfl, rfl, rfl⟩
  simp [tracksOnMessage, h]

/-- Witness for C2's amended theorem at the non-object payload. -/
theorem malformed_message_state_unchanged_witness :
    normalizeTelemetryMessage ParsedPayload.notObject = none ∧
    tracksOnMessage "D1" (some ParsedPayload.notObject) 0
        ⟨emptyTracks, fun _ => none⟩ = ⟨emptyTracks, fun _ => none⟩ :=
  ⟨rfl, (malformed_message_state_unchanged "D1" ParsedPayload.notObject 0
    ⟨emptyTracks, fun _ => none⟩ ⟨fun _ => none, fun _ => [], none⟩ rfl).2.1⟩

/-- C5: the retry-counter state machine schedules, after the n-th consecutive
failure, a delay of `min(10000, 1000 * 2^(n-1))` ms; attempts 1..6 give
1000, 2000, 4000, 8000, 10000, 10000. -/
theorem backoff_delay_sequence :
    (∀ n : Nat, (onCloseBackoff^[n] ⟨0, []⟩).scheduled
      = (List.range n).map
          (fun i => min RECONNECT_MAX_DELAY_MS (RECONNECT_BASE_DELAY_MS * 2 ^ i))) ∧
    (onCloseBackoff^[6] ⟨0, []⟩).scheduled = [1000, 2000, 4000, 8000, 10000, 10000] := by
  have key : ∀ n : Nat, (onCloseBackoff^[n] ⟨0, []⟩).retryCount = n ∧
      (onCloseBackoff^[n] ⟨0, []⟩).scheduled
        = (List.range n).map
            (fun i => min RECONNECT_MAX_DELAY_MS (RECONNECT_BASE_DELAY_MS * 2 ^ i)) := by
    intro n
    induction n with
    | zero => exact ⟨rfl, rfl⟩
    | succ n ih =>
      obtain ⟨h1, h2⟩ := ih
      rw [Function.iterate_succ_apply']
      constructor
      · simp [onCloseBackoff, h1]
      · simp [onCloseBackoff, reconnectDelay, h1, h2, List.range_succ]
  exact ⟨fun n => (key n).2, by decide⟩

/-- C6: for any sequence of accepted samples, the history buffer is exactly
the most recent `min n HISTORY_POINTS` points in arrival order (the oldest
are evicted first), so its length never exceeds the capacity. -/
theorem history_buffer_bound (ps : List TelemetryHistoryPoint) :
    ps.foldl appendHistory [] = ps.drop (ps.length - HISTORY_POINTS) ∧
    (ps.foldl appendHistory []).length = min ps.length HISTORY_POINTS := by
  have h := foldl_appendHistory ps [] (by simp [HISTORY_POINTS])
  rw [List.nil_append, takeRight] at h
  refine ⟨h, ?_⟩
  rw [h, List.length_drop]
  omega

/-- C9: appending a point identical (lat, lon, t) to the entity's last
recorded point leaves the track state unchanged. -/
theorem duplicate_point_idempotent (prev : DroneTrackState) (droneId : String)
    (point : TrackPoint) (h : lastRecordedPoint prev droneId = some point) :
    upsertTrack prev droneId point = prev :=
  upsertTrack_dup h

/-- Witness for C9 at a concrete one-point state. -/
theorem duplicate_point_idempotent_witness :
    lastRecordedPoint (Function.update emptyTracks "D1" [[⟨0, 0, 5⟩]]) "D1"
      = some ⟨0, 0, 5⟩ ∧
    upsertTrack (Function.update emptyTracks "D1" [[⟨0, 0, 5⟩]]) "D1" ⟨0, 0, 5⟩
      = Function.update emptyTracks "D1" [[⟨0, 0, 5⟩]] :=
  ⟨rfl, duplicate_point_idempotent _ _ _ rfl⟩

/-- C10: a present-but-zero event timestamp is treated as absent by the
staleness derivation: the last-update time falls back to the receipt
timestamp, and when that is also zero or absent the last-update time is
undefined and the entity is reported stale. -/
theorem zero_timestamp_treated_absent (t : Telemetry) (h : t.timestamp = some 0) :
    (∀ r : ℚ, t.received_timestamp = some r → r ≠ 0 →
      lastUpdateMs (some t) = some (r * 1000)) ∧
    ((t.received_timestamp = none ∨ t.received_timestamp = some 0) →
      lastUpdateMs (some t) = none ∧ ∀ now : ℚ, isStale now (some t) = true) := by
  have hts : ¬ qTruthy t.timestamp = true := by simp [qTruthy, h]
  constructor
  · intro r hr hrne
    rw [lastUpdateMs, if_neg hts, if_pos (by simp [qTruthy, hr, hrne]), hr]
    rfl
  · intro hcase
    have hrs : ¬ qTruthy t.received_timestamp = true := by
      rcases hcase with hc | hc <;> simp [qTruthy, hc]
    have hnone : lastUpdateMs (some t) = none := by
      rw [lastUpdateMs, if_neg hts, if_neg hrs]
    exact ⟨hnone, fun now => by rw [isStale, hnone]⟩

/-- Witness for C10 at a record with both timestamps zero. -/
theorem zero_timestamp_treated_absent_witness :
    lastUpdateMs (some
      ⟨"D1", some 0, some 0, none, none, none, none, none, none, none, none,
        none, none, none⟩) = none ∧
    isStale 0 (some
      ⟨"D1", some 0, some 0, none, none, none, none, none, none, none, none,
        none, none, none⟩) = true := by
  have h := (zero_timestamp_treated_absent
    ⟨"D1", some 0, some 0, none, none, none, none, none, none, none, none,
      none, none, none⟩ rfl).2 (Or.inr rfl)
  exact ⟨h.1, h.2 0⟩

/-- Appending a first point to an empty state produces a single singleton
segment. -/
theorem upsert_empty_eval (droneId : String) (p : TrackPoint) :
    upsertTrack emptyTracks droneId p = Function.update emptyTracks droneId [[p]] := by
  simp [upsertTrack, emptyTracks, trimSegments, trimGo, totalPoints, MAX_POINTS_PER_DRONE]

/-- A sample 10 s older than the last point (within the 20 s gap threshold)
extends the current segment. -/
theorem upsert_two_points_eval :
    (upsertTrack (upsertTrack emptyTracks "D1" ⟨0, 0, 100⟩) "D1" ⟨1, 1, 90⟩) "D1"
      = [[⟨0, 0, 100⟩, ⟨1, 1, 90⟩]] := by
  rw [upsert_empty_eval]
  simp [upsertTrack, emptyTracks, shouldStartNewSegment, segment_gap_eq, trimSegments,
    trimGo, totalPoints, MAX_POINTS_PER_DRONE, Function.update]
  norm_num
  decide

/-- C3 counterexample: the claim that time values within a segment are
monotonically non-decreasing in every reachable state is false: a point 10 s
older than the last one is within the gap threshold and extends the segment,
producing the in-segment pair (t = 100, t = 90). -/
theorem segment_time_not_monotone :
    ReachableTrack (upsertTrack (upsertTrack emptyTracks "D1" ⟨0, 0, 100⟩) "D1" ⟨1, 1, 90⟩) ∧
    (upsertTrack (upsertTrack emptyTracks "D1" ⟨0, 0, 100⟩) "D1" ⟨1, 1, 90⟩) "D1"
      = [[⟨0, 0, 100⟩, ⟨1, 1, 90⟩]] ∧
    ¬ (∀ seg ∈ (upsertTrack (upsertTrack emptyTracks "D1" ⟨0, 0, 100⟩) "D1" ⟨1, 1, 90⟩) "D1",
        seg.Chain' (fun a b => a.t ≤ b.t)) := by
  refine ⟨ReachableTrack.step _ _ (ReachableTrack.step _ _ ReachableTrack.empty),
    upsert_two_points_eval, ?_⟩
  intro hall
  have h := hall [⟨0, 0, 100⟩, ⟨1, 1, 90⟩]
    (by rw [upsert_two_points_eval]; exact List.mem_singleton.mpr rfl)
  have h2 := (List.chain'_cons.mp h).1
  norm_num at h2

/-- C3 (amended): within a segment consecutive time gaps stay within the
threshold but need not be monotone; monotonicity IS preserved by every append
whose point does not go backwards in time relative to the entity's last
recorded point. -/
theorem segment_mono_of_ordered_appends
    {prev : DroneTrackState} {droneId : String} {point : TrackPoint}
    (hall : ∀ id, ∀ seg ∈ prev id, seg.Chain' (fun a b => a.t ≤ b.t))
    (hord : ∀ lp, lastRecordedPoint prev droneId = some lp → lp.t ≤ point.t) :
    ∀ id, ∀ seg ∈ (upsertTrack prev droneId point) id,
      seg.Chain' (fun a b => a.t ≤ b.t) :=
  upsert_preserves_chain _ hall (fun lp h _ => hord lp h)

/-- Witness for C3's amended theorem at a concrete one-point state: the
segment obtained by an in-order append is monotone. -/
theorem segment_mono_of_ordered_appends_witness :
    List.Chain' (fun a b : TrackPoint => a.t ≤ b.t) [⟨0, 0, 0⟩, ⟨1, 1, 15⟩] := by
  have heval : (upsertTrack (Function.update emptyTracks "D1" [[⟨0, 0, 0⟩]])
      "D1" ⟨1, 1, 15⟩) "D1" = [[⟨0, 0, 0⟩, ⟨1, 1, 15⟩]] := by
    simp [upsertTrack, emptyTracks, shouldStartNewSegment, segment_gap_eq, trimSegments,
      trimGo, totalPoints, MAX_POINTS_PER_DRONE, Function.update]
    norm_num
  have hall : ∀ id, ∀ seg ∈ Function.update emptyTracks "D1" [[⟨0, 0, 0⟩]] id,
      seg.Chain' (fun a b : TrackPoint => a.t ≤ b.t) := by
    intro id seg hs
    rw [Function.update_apply] at hs
    by_cases hid : id = "D1"
    · rw [if_pos hid, List.mem_singleton] at hs
      rw [hs]
      exact List.chain'_singleton _
    · rw [if_neg hid] at hs
      simp [emptyTracks] at hs
  have hord : ∀ lp, lastRecordedPoint (Function.update emptyTracks "D1" [[⟨0, 0, 0⟩]])
      "D1" = some lp → lp.t ≤ (⟨1, 1, 15⟩ : TrackPoint).t := by
    intro lp h
    have h' : some (⟨0, 0, 0⟩ : TrackPoint) = some lp := h
    rw [← Option.some.inj h']
    norm_num
  exact segment_mono_of_ordered_appends hall hord "D1" _
    (by rw [heval]; exact List.mem_singleton.mpr rfl)

/-- Evaluation of `simplifySegment` on a 3-point segment whose last point is
a near-duplicate of the middle one. -/
theorem simplify_example_eval :
    simplifySegment [⟨0, 0, 0⟩, ⟨1, 1, 1⟩, ⟨1, 1, 2⟩] = [⟨0, 0, 0⟩, ⟨1, 1, 1⟩] := by
  have e1 : ¬((1 : ℚ) + 1 < simplifyMinDelta) := by
    rw [simplifyMinDelta]
    norm_num
  have e2 : (0 : ℚ) < simplifyMinDelta := by
    rw [simplifyMinDelta]
    norm_num
  simp [simplifySegment, dedupeGo, simplifyMaxPoints, e1, e2]

/-- C4 counterexample: the simplified segment does NOT always contain the
last point of the original segment: a last point within the min-delta of the
previous kept point is removed by the dedup pass. -/
theorem simplify_drops_original_last :
    ([⟨0, 0, 0⟩, ⟨1, 1, 1⟩, ⟨1, 1, 2⟩] : TrackSegment).getLast? = some ⟨1, 1, 2⟩ ∧
    simplifySegment [⟨0, 0, 0⟩, ⟨1, 1, 1⟩, ⟨1, 1, 2⟩] = [⟨0, 0, 0⟩, ⟨1, 1, 1⟩] ∧
    (⟨1, 1, 2⟩ : TrackPoint) ∉ simplifySegment [⟨0, 0, 0⟩, ⟨1, 1, 1⟩, ⟨1, 1, 2⟩] := by
  refine ⟨rfl, simplify_example_eval, ?_⟩
  rw [simplify_example_eval]
  simp [TrackPoint.mk.injEq]

/-- C4 (amended): the simplified segment always keeps the original first
point at its head, and its final point is the last point kept by the dedup
pass: the original last point itself when it is not a near-duplicate, and
otherwise a point within the min-delta L1 threshold of it. -/
theorem simplify_preserves_first_and_near_last (p0 : TrackPoint) (rest : List TrackPoint) :
    (simplifySegment (p0 :: rest)).head? = some p0 ∧
    ∃ q l, (simplifySegment (p0 :: rest)).getLast? = some q ∧
      (p0 :: rest).getLast? = some l ∧
      (q = l ∨ |q.lat - l.lat| + |q.lon - l.lon| < simplifyMinDelta) := by
  obtain ⟨lorig, hlorig⟩ : ∃ l, (p0 :: rest).getLast? = some l := by
    cases h : (p0 :: rest).getLast? with
    | none => exact absurd (List.getLast?_eq_none_iff.mp h) (by simp)
    | some l => exact ⟨l, rfl⟩
  by_cases hlen : (p0 :: rest).length ≤ 2
  · rw [simplifySegment, if_pos hlen]
    exact ⟨rfl, lorig, lorig, hlorig, hlorig, Or.inl rfl⟩
  · obtain ⟨q, hq, hclose⟩ := dedupeGo_getLast_close rest p0
    have hunfold : simplifySegment (p0 :: rest)
        = if (p0 :: dedupeGo p0 rest).length ≤ simplifyMaxPoints then
            p0 :: dedupeGo p0 rest
          else
            decimate (p0 :: dedupeGo p0 rest)
              (((p0 :: dedupeGo p0 rest).length + simplifyMaxPoints - 1)
                / simplifyMaxPoints) := by
      rw [simplifySegment, if_neg hlen]
    by_cases hd : (p0 :: dedupeGo p0 rest).length ≤ simplifyMaxPoints
    · rw [hunfold, if_pos hd]
      exact ⟨rfl, q, lorig, hq, hlorig, hclose lorig hlorig⟩
    · rw [hunfold, if_neg hd]
      refine ⟨decimate_head _ _ _, q, lorig, ?_, hlorig, hclose lorig hlorig⟩
      rw [decimate_getLast _ _ (by simp)]
      exact hq

/-- C7: reachable per-entity totals never exceed the cap after an update;
trimming removes a prefix of the flattened point sequence (earliest points of
the earliest segments first), never reorders surviving points, and drops
segments that become empty rather than leaving them behind. -/
theorem track_points_capped_and_trim_ordered :
    (∀ s : DroneTrackState, ReachableTrack s →
      ∀ id, totalPoints (s id) ≤ MAX_POINTS_PER_DRONE) ∧
    (∀ segments : List TrackSegment,
      totalPoints (trimSegments segments) ≤ MAX_POINTS_PER_DRONE) ∧
    (∀ segments : List TrackSegment,
      ∃ k, (trimSegments segments).flatten = segments.flatten.drop k) ∧
    (∀ segments : List TrackSegment, (∀ s ∈ segments, s ≠ []) →
      ∀ s ∈ trimSegments segments, s ≠ []) :=
  ⟨fun _ hs => (reachable_invariant hs).1, totalPoints_trimSegments_le,
    trimSegments_flatten, fun segments h => trimGo_ne_nil segments _ h⟩

/-- Witness for C7 at the empty state and a concrete segment list. -/
theorem track_points_capped_and_trim_ordered_witness :
    totalPoints (emptyTracks "D1") ≤ MAX_POINTS_PER_DRONE ∧
    ∀ s ∈ trimSegments [[(⟨0, 0, 0⟩ : TrackPoint)]], s ≠ [] :=
  ⟨track_points_capped_and_trim_ordered.1 emptyTracks ReachableTrack.empty "D1",
   track_points_capped_and_trim_ordered.2.2.2 [[⟨0, 0, 0⟩]] (by simp)⟩

/-- C8: in every reachable track state consecutive points of one segment
differ in time by at most `SEGMENT_GAP_SECONDS` (= max(20 s, stale threshold
in seconds)), and a point whose gap from the entity's last recorded point
exceeds the threshold starts a fresh singleton segment instead of extending
the current one. -/
theorem segment_gap_invariant :
    (∀ s : DroneTrackState, ReachableTrack s →
      ∀ id, ∀ seg ∈ s id, seg.Chain' gapOK) ∧
    (∀ s : DroneTrackState, ReachableTrack s → ∀ id : String, ∀ point lp : TrackPoint,
      lastRecordedPoint s id = some lp →
      |point.t - lp.t| > SEGMENT_GAP_SECONDS →
      upsertTrack s id point
        = Function.update s id (trimSegments (s id ++ [[point]])) ∧
      ((upsertTrack s id point) id).getLast? = some [point]) := by
  refine ⟨fun s hs => (reachable_invariant hs).2.2, ?_⟩
  intro s hs id point lp hlast hgap
  have hnew : shouldStartNewSegment (some lp) (some point) = true := by
    simp [shouldStartNewSegment, hgap]
  have heq := upsertTrack_gap_new_segment hlast hnew
  refine ⟨heq, ?_⟩
  rw [heq, Function.update_same]
  exact trimSegments_concat_getLast _ _ ((reachable_invariant hs).1 id)
    ((reachable_invariant hs).2.1 id)

/-- Witness for C8 at a concrete reachable state and a gap-exceeding point. -/
theorem segment_gap_invariant_witness :
    ReachableTrack (upsertTrack emptyTracks "D1" ⟨0, 0, 0⟩) ∧
    (∀ seg ∈ (upsertTrack emptyTracks "D1" ⟨0, 0, 0⟩) "D1", seg.Chain' gapOK) ∧
    upsertTrack (upsertTrack emptyTracks "D1" ⟨0, 0, 0⟩) "D1" ⟨1, 1, 100⟩
      = Function.update (upsertTrack emptyTracks "D1" ⟨0, 0, 0⟩) "D1"
          (trimSegments ((upsertTrack emptyTracks "D1" ⟨0, 0, 0⟩) "D1"
            ++ [[⟨1, 1, 100⟩]])) ∧
    ((upsertTrack (upsertTrack emptyTracks "D1" ⟨0, 0, 0⟩) "D1" ⟨1, 1, 100⟩) "D1").getLast?
      = some [⟨1, 1, 100⟩] := by
  have hreach : ReachableTrack (upsertTrack emptyTracks "D1" ⟨0, 0, 0⟩) :=
    ReachableTrack.step _ _ ReachableTrack.empty
  have hlast : lastRecordedPoint (upsertTrack emptyTracks "D1" ⟨0, 0, 0⟩) "D1"
      = some ⟨0, 0, 0⟩ := by
    rw [upsert_empty_eval]
    rfl
  have hgap : |(⟨1, 1, 100⟩ : TrackPoint).t - (⟨0, 0, 0⟩ : TrackPoint).t|
      > SEGMENT_GAP_SECONDS := by
    rw [segment_gap_eq]
    norm_num
  have h := segment_gap_invariant.2 _ hreach "D1" ⟨1, 1, 100⟩ ⟨0, 0, 0⟩ hlast hgap
  exact ⟨hreach, segment_gap_invariant.1 _ hreach "D1", h.1, h.2⟩

end DroneTelemetry
